import Mathlib

/-!
Verification of the turicreate drawing-classifier / style-transfer toolkit core:
the `simple_data_iterator` batch cursor with class-label management
(`dc_data_iterator.cpp`), the double-buffered train/evaluate loops of
`drawing_classifier.cpp`, and the batch preparation of `style_transfer.cpp`.

Floats are modelled as exact rationals (`ℚ`); machine counters as `ℕ`.
The tensor-compute backend is abstract: per-batch backend results are data.
-/

namespace TuriCreate

/-! ### Batch cursor: `simple_data_iterator` (dc_data_iterator.cpp)

Rows are abstracted to an arbitrary type `α`.  The state mirrors the C++
members: the (reorderable) data, the position of `next_row_` within the data
(`pos = data.length` models `next_row_ == end`), the `repeat_` and `shuffle_`
flags.  The in-place shuffle performed at epoch wraparound (hashing a masked
row index and sorting on it) is modelled by the `reshuffle` function carried
in the state; for `shuffle = false` it is never invoked. -/

structure simple_data_iterator (α : Type) where
  data : List α
  pos : ℕ
  repeat_ : Bool
  shuffle : Bool
  reshuffle : List α → List α

/-- The constructor `simple_data_iterator::simple_data_iterator`: begins an
iteration through the entire SFrame, i.e. the cursor starts at row 0. -/
def simple_data_iterator.construct {α : Type} (data : List α) (repeat_ shuffle : Bool)
    (reshuffle : List α → List α) : simple_data_iterator α :=
  { data := data, pos := 0, repeat_ := repeat_, shuffle := shuffle, reshuffle := reshuffle }

/-- `simple_data_iterator::has_next_batch`: `next_row_ != end_of_rows_`. -/
def has_next_batch {α : Type} (st : simple_data_iterator α) : Bool :=
  decide (st.pos ≠ st.data.length)

/-- The `while` loop of `simple_data_iterator::next_batch`: keep consuming rows
while the batch is not full and the cursor has not reached the end.  After
consuming the last row, if `repeat_` is set the cursor rewinds to row 0
(reordering the data first when `shuffle` is set). -/
def nextBatchLoop {α : Type} : simple_data_iterator α → ℕ → List α × simple_data_iterator α
  | st, 0 => ([], st)
  | st, n + 1 =>
    if h : st.pos < st.data.length then
      let row := st.data.get ⟨st.pos, h⟩
      let st' :=
        if st.pos + 1 = st.data.length ∧ st.repeat_ = true then
          { st with data := if st.shuffle then st.reshuffle st.data else st.data, pos := 0 }
        else
          { st with pos := st.pos + 1 }
      let rest := nextBatchLoop st' n
      (row :: rest.1, rest.2)
    else
      ([], st)

/-- `simple_data_iterator::next_batch(batch_size)`: returns the emitted rows
(whose length is the `num_samples` of the batch) and the updated iterator. -/
def next_batch {α : Type} (st : simple_data_iterator α) (batch_size : ℕ) :
    List α × simple_data_iterator α :=
  nextBatchLoop st batch_size

/-- A sequence of successive `next_batch` calls with the given requested batch
sizes; returns all emitted rows, in order, with the final iterator state. -/
def runCalls {α : Type} (st : simple_data_iterator α) : List ℕ → List α × simple_data_iterator α
  | [] => ([], st)
  | n :: ns =>
    let b := next_batch st n
    let rest := runCalls b.2 ns
    (b.1 ++ rest.1, rest.2)

/-! ### Label registry: `simple_data_iterator::compute_properties` -/

/-- The target properties computed at iterator construction: the ordered class
list and the class-to-index map (`std::map<std::string, int>`, modelled as a
function into `Option`; absent keys are `none`). -/
structure target_properties where
  classes : List String
  class_to_index_map : String → Option ℕ

/-- The loop `int i = 0; for (label : labels) map[label] = i++;` starting from
counter `i` and map `m`; a later assignment to the same key overwrites. -/
def buildMapFrom : List String → ℕ → (String → Option ℕ) → (String → Option ℕ)
  | [], _, m => m
  | l :: ls, i, m => buildMapFrom ls (i + 1) (Function.update m l (some i))

/-- The complete class-to-index map built from a label list. -/
def buildMap (ls : List String) : String → Option ℕ :=
  buildMapFrom ls 0 (fun _ => none)

/-- `targets.unique().sort()`: the distinct observed labels in lexicographic
order. -/
def uniqueSorted (targets : List String) : List String :=
  targets.toFinset.sort (· ≤ ·)

/-- `simple_data_iterator::compute_properties`: with no expected labels, infer
the class list from the distinct observed labels (sorted); otherwise take the
expected labels verbatim as the class list and fail on any observed label
absent from that list.  `log_and_throw` is modelled by `Except.error`. -/
def compute_properties (targets : List String) (expected_class_labels : List String) :
    Except String target_properties :=
  let classes := uniqueSorted targets
  if expected_class_labels.isEmpty then
    Except.ok { classes := classes, class_to_index_map := buildMap classes }
  else
    let m := buildMap expected_class_labels
    match classes.find? (fun l => (m l).isNone) with
    | some l => Except.error ("Targets contained unexpected class label " ++ l)
    | none => Except.ok { classes := expected_class_labels, class_to_index_map := m }

/-- Whether a `compute_properties` run threw. -/
def isError {ε α : Type} : Except ε α → Bool
  | Except.error _ => true
  | Except.ok _ => false

/-- The properties produced by the (never-failing) inferred path of
`compute_properties`, i.e. with an empty expected-label list. -/
def inferredProperties (targets : List String) : target_properties :=
  match compute_properties targets [] with
  | Except.ok r => r
  | Except.error _ => { classes := [], class_to_index_map := fun _ => none }

/-! ### Pipelined trainer / evaluator (drawing_classifier.cpp)

`iterate_training` and `compute_validation_metrics` drive the data iterator,
submit each batch to the backend, and drain a queue of pending per-batch
results.  The backend is abstract, so a run is parametrised by the list of
per-batch results it returns, in submission order: for each batch, the number
of samples, the scalar in `accuracy_info` and the contents of the `loss_info`
array. -/

structure BatchResult where
  numSamples : ℕ
  accuracy : ℚ
  lossValues : List ℚ

/-- The accumulators of `drawing_classifier::iterate_training`. -/
structure TrainAcc where
  cumulative_batch_loss : ℚ
  num_batches : ℕ
  train_num_correct : ℕ
  train_num_samples : ℕ

/-- The accumulators of `drawing_classifier::compute_validation_metrics`. -/
structure ValAcc where
  cumulative_val_loss : ℚ
  val_size : ℕ
  val_num_correct : ℕ
  val_num_samples : ℕ

/-- `static_cast<size_t>(*(batch.accuracy_info.data()) *
batch.data_info.num_samples)`: truncation of the (nonnegative) product to an
unsigned integer. -/
def batchNumCorrect (b : BatchResult) : ℕ :=
  (Int.floor (b.accuracy * (b.numSamples : ℚ))).toNat

/-- The body of the `while` loop of `pop_until_size` in `iterate_training`: fold one
popped batch into the training accumulators.  Note the loss contribution is
the summed loss of the batch divided by the sample count of that batch. -/
def trainFold (acc : TrainAcc) (b : BatchResult) : TrainAcc :=
  { acc with
    train_num_correct := acc.train_num_correct + batchNumCorrect b,
    train_num_samples := acc.train_num_samples + b.numSamples,
    cumulative_batch_loss := acc.cumulative_batch_loss + b.lossValues.sum / (b.numSamples : ℚ) }

/-- The body of the `while` loop of `pop_until_size` in `compute_validation_metrics`:
fold one popped batch into the validation accumulators.  The loss contribution
is the summed loss of the batch (size-weighted, no per-batch division). -/
def valFold (acc : ValAcc) (b : BatchResult) : ValAcc :=
  { acc with
    val_num_correct := acc.val_num_correct + batchNumCorrect b,
    val_num_samples := acc.val_num_samples + b.numSamples,
    cumulative_val_loss := acc.cumulative_val_loss + b.lossValues.sum }

/-- `pop_until_size(remaining)`: pop batches from the front of
`pending_batches` and fold them via `fold` while the queue holds more than
`remaining` entries. -/
def pop_until_size {σ : Type} (fold : σ → BatchResult → σ) (remaining : ℕ) :
    σ → List BatchResult → σ × List BatchResult
  | acc, [] => (acc, [])
  | acc, b :: rest =>
    if rest.length + 1 > remaining then pop_until_size fold remaining (fold acc b) rest
    else (acc, b :: rest)

/-- The observable outcome of one of the per-epoch `while
(iterator->has_next_batch())` loops: final accumulators, final queue, and the
log of queue depths — for each iteration, the pending-queue size just before
the new batch is pushed and just after. -/
structure LoopOut (σ : Type) where
  acc : σ
  queue : List BatchResult
  depthLog : List (ℕ × ℕ)

/-- The main loop of `iterate_training` over the backend results `bs`: each
iteration drains the queue to at most 1 entry, increments `num_batches`, and
pushes the new pending result. -/
def trainLoop : TrainAcc → List BatchResult → List BatchResult → LoopOut TrainAcc
  | acc, q, [] => { acc := acc, queue := q, depthLog := [] }
  | acc, q, b :: bs =>
    let p := pop_until_size trainFold 1 acc q
    let out := trainLoop { p.1 with num_batches := p.1.num_batches + 1 } (p.2 ++ [b]) bs
    { out with depthLog := (p.2.length, p.2.length + 1) :: out.depthLog }

/-- The main loop of `compute_validation_metrics` over the backend results
`bs`: each iteration drains the queue to at most 1 entry, adds the new batch
sample count of the new batch to `val_size`, and pushes the new pending result. -/
def valLoop : ValAcc → List BatchResult → List BatchResult → LoopOut ValAcc
  | acc, q, [] => { acc := acc, queue := q, depthLog := [] }
  | acc, q, b :: bs =>
    let p := pop_until_size valFold 1 acc q
    let out := valLoop { p.1 with val_size := p.1.val_size + b.numSamples } (p.2 ++ [b]) bs
    { out with depthLog := (p.2.length, p.2.length + 1) :: out.depthLog }

/-- Zero-initialised training accumulators. -/
def trainAcc0 : TrainAcc := { cumulative_batch_loss := 0, num_batches := 0,
                              train_num_correct := 0, train_num_samples := 0 }

/-- Zero-initialised validation accumulators. -/
def valAcc0 : ValAcc := { cumulative_val_loss := 0, val_size := 0,
                          val_num_correct := 0, val_num_samples := 0 }

/-- The training accumulators after the epoch loop and the final
`pop_until_size(0)` drain. -/
def trainFinalAcc (bs : List BatchResult) : TrainAcc :=
  let out := trainLoop trainAcc0 [] bs
  (pop_until_size trainFold 0 out.acc out.queue).1

/-- The validation accumulators after the epoch loop and the final
`pop_until_size(0)` drain. -/
def valFinalAcc (bs : List BatchResult) : ValAcc :=
  let out := valLoop valAcc0 [] bs
  (pop_until_size valFold 0 out.acc out.queue).1

/-- An epoch summary: the accuracy and loss a loop records. -/
structure EpochSummary where
  accuracy : ℚ
  loss : ℚ

/-- The epoch summary recorded by `iterate_training`:
`average_batch_accuracy = train_num_correct / train_num_samples` and
`average_batch_loss = cumulative_batch_loss / num_batches`. -/
def trainEpochSummary (bs : List BatchResult) : EpochSummary :=
  let acc := trainFinalAcc bs
  { accuracy := (acc.train_num_correct : ℚ) / (acc.train_num_samples : ℚ),
    loss := acc.cumulative_batch_loss / (acc.num_batches : ℚ) }

/-- The epoch summary returned by `compute_validation_metrics`:
`average_val_accuracy = val_num_correct / val_num_samples` and
`average_val_loss = cumulative_val_loss / val_size`. -/
def valEpochSummary (bs : List BatchResult) : EpochSummary :=
  let acc := valFinalAcc bs
  { accuracy := (acc.val_num_correct : ℚ) / (acc.val_num_samples : ℚ),
    loss := acc.cumulative_val_loss / (acc.val_size : ℚ) }

/-! ### Save / export guards (drawing_classifier.cpp, style_transfer.cpp)

The model spec members (`nn_spec_`, `m_resnet_spec`) are smart pointers, null
until training initialises them; modelled as `Option`.  An operation either
succeeds, throws an explicit error message (`log_and_throw`), or dereferences
a null pointer (`st_save_impl` reads `m_resnet_spec->...` with no guard). -/

inductive SaveOutcome where
  | saved : SaveOutcome
  | fatal : String → SaveOutcome
  | nullDeref : SaveOutcome
deriving DecidableEq

/-- `drawing_classifier::save_impl`: throws when `nn_spec_` is null. -/
def dc_save_impl (nn_spec : Option Unit) : SaveOutcome :=
  match nn_spec with
  | none => SaveOutcome.fatal
      "model spec is not initalized, please call `init_train` before saving model"
  | some _ => SaveOutcome.saved

/-- `drawing_classifier::export_to_coreml`: with a null `nn_spec_`, either
substitutes a default spec (when `use_default_spec`) or throws. -/
def dc_export_to_coreml (nn_spec : Option Unit) (use_default_spec : Bool) : SaveOutcome :=
  match nn_spec with
  | none =>
    if use_default_spec then SaveOutcome.saved
    else SaveOutcome.fatal "model is not initialized; please call train before export_coreml"
  | some _ => SaveOutcome.saved

/-- `style_transfer::save_impl`: dereferences `m_resnet_spec` with no null
check. -/
def st_save_impl (m_resnet_spec : Option Unit) : SaveOutcome :=
  match m_resnet_spec with
  | none => SaveOutcome.nullDeref
  | some _ => SaveOutcome.saved

/-! ### Style transfer batch preparation (style_transfer.cpp)

`image_util::resize_image` and `get_image_data` are external collaborators:
an image is modelled by the pixel bytes its resize to given dimensions
produces.  Pixel bytes are `unsigned char` values, i.e. naturals `< 256`. -/

structure image_type where
  resized : ℕ → ℕ → ℕ → List ℕ

structure st_example where
  content_image : image_type
  style_image : image_type
  style_index : ℕ

instance : Inhabited st_example :=
  ⟨{ content_image := ⟨fun _ _ _ => []⟩, style_image := ⟨fun _ _ _ => []⟩, style_index := 0 }⟩

/-- `prepare_images`: the pixel data of the image resized to
`width × height × channels`, each byte divided by `255.f`. -/
def prepare_images (image : image_type) (width height channels : ℕ) : List ℚ :=
  (image.resized width height channels).map (fun (v : ℕ) => (v : ℚ) / 255)

/-- Writing `vals` into a buffer at `offset` (the `std::transform` into
`start_iter = array.begin() + offset`). -/
def writeAt (arr : List ℚ) (offset : ℕ) (vals : List ℚ) : List ℚ :=
  arr.take offset ++ vals ++ arr.drop (offset + vals.length)

/-- The `for (index = 0; ...)` loop of `prepare_batch` writing each prepared
image at offset `index * image_size` of the buffer. -/
def write_images (image_size : ℕ) : List ℚ → ℕ → List (List ℚ) → List ℚ
  | arr, _, [] => arr
  | arr, i, vals :: rest => write_images image_size (writeAt arr (i * image_size) vals) (i + 1) rest

/-- A `shared_float_array::wrap(data, shape)` value. -/
structure float_array where
  data : List ℚ
  shape : List ℕ

/-- The `float_array_map` returned by `prepare_batch`, with its three named
entries. -/
structure PreparedBatch where
  input : float_array
  labels : float_array
  index : float_array

/-- `style_transfer` helper `prepare_batch(batch, width, height)`: builds the
content buffer (→ "input"), the style buffer (→ "labels") and the style-index
vector (→ "index"). -/
def prepare_batch (batch : List st_example) (width height : ℕ) : PreparedBatch :=
  let channels : ℕ := 3
  let batch_size := batch.length
  let image_size := height * width * channels
  let content_array := write_images image_size
    (List.replicate (image_size * batch_size) (0 : ℚ)) 0
    (batch.map (fun e => prepare_images e.content_image width height channels))
  let style_array := write_images image_size
    (List.replicate (image_size * batch_size) (0 : ℚ)) 0
    (batch.map (fun e => prepare_images e.style_image width height channels))
  let index_array := batch.map (fun e => (e.style_index : ℚ))
  { input := { data := content_array, shape := [batch_size, height, width, channels] },
    labels := { data := style_array, shape := [batch_size, height, width, channels] },
    index := { data := index_array, shape := [batch_size] } }

/-- A concrete 1×1 test image whose resized pixel data is `[10, 20, 30]`. -/
def exImage1 : image_type := { resized := fun _ _ _ => [10, 20, 30] }

/-- A concrete 1×1 test image whose resized pixel data is `[0, 255, 128]`. -/
def exImage2 : image_type := { resized := fun _ _ _ => [0, 255, 128] }

/-- A concrete one-example style transfer batch. -/
def exBatch : List st_example :=
  [{ content_image := exImage1, style_image := exImage2, style_index := 7 }]

/-! ## Theorems -/

/-! ### Batch cursor lemmas -/

theorem nextBatchLoop_length_le {α : Type} (st : simple_data_iterator α) (n : ℕ) :
    (nextBatchLoop st n).1.length ≤ n := by
  induction n generalizing st with
  | zero => simp [nextBatchLoop]
  | succ n ih =>
    simp only [nextBatchLoop]
    split
    · simp only [List.length_cons]
      exact Nat.succ_le_succ (ih _)
    · simp

theorem nextBatchLoop_norepeat_length {α : Type} (st : simple_data_iterator α) (n : ℕ)
    (hrep : st.repeat_ = false) :
    (nextBatchLoop st n).1.length = min n (st.data.length - st.pos) := by
  induction n generalizing st with
  | zero => simp [nextBatchLoop]
  | succ n ih =>
    simp only [nextBatchLoop]
    split
    · rename_i h
      rw [if_neg (by simp [hrep])]
      simp only [List.length_cons]
      rw [ih { st with pos := st.pos + 1 } hrep]
      simp only []
      omega
    · rename_i h
      simp only [List.length_nil]
      omega

theorem nextBatchLoop_norepeat_state {α : Type} (st : simple_data_iterator α) (n : ℕ)
    (hrep : st.repeat_ = false) (hle : st.pos ≤ st.data.length) :
    (nextBatchLoop st n).2 = { st with pos := min (st.pos + n) st.data.length } := by
  induction n generalizing st with
  | zero =>
    simp only [nextBatchLoop, Nat.add_zero]
    rw [Nat.min_eq_left hle]
  | succ n ih =>
    simp only [nextBatchLoop]
    split
    · rename_i h
      rw [if_neg (by simp [hrep])]
      simp only []
      rw [ih { st with pos := st.pos + 1 } hrep (by simp only []; omega)]
      simp only [simple_data_iterator.mk.injEq, true_and, and_true]
      omega
    · rename_i h
      have hmin : min (st.pos + (n + 1)) st.data.length = st.pos := by omega
      rw [hmin]

theorem runCalls_norepeat_state {α : Type} (st : simple_data_iterator α) (ns : List ℕ)
    (hrep : st.repeat_ = false) (hle : st.pos ≤ st.data.length) :
    (runCalls st ns).2 = { st with pos := min (st.pos + ns.sum) st.data.length } := by
  induction ns generalizing st with
  | nil =>
    simp only [runCalls, List.sum_nil, Nat.add_zero]
    rw [Nat.min_eq_left hle]
  | cons n ns ih =>
    simp only [runCalls, next_batch]
    rw [nextBatchLoop_norepeat_state st n hrep hle]
    rw [ih { st with pos := min (st.pos + n) st.data.length } hrep (by simp only []; omega)]
    simp only [simple_data_iterator.mk.injEq, true_and, and_true, List.sum_cons]
    omega

theorem nextBatchLoop_repeat_length {α : Type} (st : simple_data_iterator α) (n : ℕ)
    (hrep : st.repeat_ = true) (hpos : st.pos < st.data.length)
    (hres : ∀ l, (st.reshuffle l).length = l.length) :
    (nextBatchLoop st n).1.length = n := by
  induction n generalizing st with
  | zero => simp [nextBatchLoop]
  | succ n ih =>
    simp only [nextBatchLoop]
    rw [dif_pos hpos]
    simp only [List.length_cons]
    congr 1
    split
    · rename_i hcond
      apply ih
      · exact hrep
      · simp only []
        split
        · rw [hres]; omega
        · omega
      · simpa using hres
    · rename_i hcond
      apply ih
      · exact hrep
      · simp only []
        have : st.pos + 1 ≠ st.data.length := by
          intro hc
          exact hcond ⟨hc, hrep⟩
        omega
      · simpa using hres

theorem nextBatchLoop_remaining_length {α : Type} (st : simple_data_iterator α) (n : ℕ)
    (hrem : st.pos + n ≤ st.data.length) :
    (nextBatchLoop st n).1.length = n := by
  induction n generalizing st with
  | zero => simp [nextBatchLoop]
  | succ n ih =>
    simp only [nextBatchLoop]
    rw [dif_pos (by omega)]
    simp only [List.length_cons]
    congr 1
    split
    · rename_i hcond
      have hn : n = 0 := by omega
      subst hn
      simp [nextBatchLoop]
    · apply ih
      simp only []
      omega

theorem nextBatchLoop_cycle {α : Type} [Inhabited α] (st : simple_data_iterator α) (n : ℕ)
    (hrep : st.repeat_ = true) (hsh : st.shuffle = false) (hpos : st.pos < st.data.length) :
    nextBatchLoop st n =
      ((List.range n).map (fun j => st.data.getD ((st.pos + j) % st.data.length) default),
       { st with pos := (st.pos + n) % st.data.length }) := by
  induction n generalizing st with
  | zero =>
    simp only [nextBatchLoop, List.range_zero, List.map_nil, Nat.add_zero]
    rw [Nat.mod_eq_of_lt hpos]
  | succ n ih =>
    simp only [nextBatchLoop]
    rw [dif_pos hpos]
    by_cases hend : st.pos + 1 = st.data.length
    · rw [if_pos ⟨hend, hrep⟩]
      rw [if_neg (show ¬(st.shuffle = true) by simp [hsh])]
      rw [ih { st with data := st.data, pos := 0 } hrep hsh (by simp only []; omega)]
      simp only [Prod.mk.injEq]
      refine ⟨?_, ?_⟩
      · rw [List.range_succ_eq_map]
        simp only [List.map_cons, List.map_map, List.cons.injEq]
        refine ⟨?_, ?_⟩
        · rw [Nat.add_zero, Nat.mod_eq_of_lt hpos]
          rw [List.getD_eq_getElem _ _ hpos]
          simp [List.get_eq_getElem]
        · apply List.map_congr_left
          intro j hj
          simp only [Function.comp_apply, Nat.succ_eq_add_one]
          have h2 : st.pos + (j + 1) = st.data.length + j := by omega
          rw [h2, Nat.add_mod_left, Nat.zero_add]
      · simp only [simple_data_iterator.mk.injEq, true_and, and_true]
        have h2 : st.pos + (n + 1) = st.data.length + n := by omega
        rw [h2, Nat.add_mod_left, Nat.zero_add]
    · rw [if_neg (by intro hc; exact hend hc.1)]
      rw [ih { st with pos := st.pos + 1 } hrep hsh (by simp only []; omega)]
      simp only [Prod.mk.injEq]
      refine ⟨?_, ?_⟩
      · rw [List.range_succ_eq_map]
        simp only [List.map_cons, List.map_map, List.cons.injEq]
        refine ⟨?_, ?_⟩
        · rw [Nat.add_zero, Nat.mod_eq_of_lt hpos]
          rw [List.getD_eq_getElem _ _ hpos]
          simp [List.get_eq_getElem]
        · apply List.map_congr_left
          intro j hj
          simp only [Function.comp_apply, Nat.succ_eq_add_one]
          have h2 : st.pos + (j + 1) = st.pos + 1 + j := by omega
          rw [h2]
      · simp only [simple_data_iterator.mk.injEq, true_and, and_true]
        have h2 : st.pos + (n + 1) = st.pos + 1 + n := by omega
        rw [h2]

theorem runCalls_cycle {α : Type} [Inhabited α] (st : simple_data_iterator α) (ns : List ℕ)
    (hrep : st.repeat_ = true) (hsh : st.shuffle = false) (hpos : st.pos < st.data.length) :
    (runCalls st ns).1 =
      (List.range ns.sum).map (fun k => st.data.getD ((st.pos + k) % st.data.length) default)
    ∧ (runCalls st ns).2 = { st with pos := (st.pos + ns.sum) % st.data.length } := by
  induction ns generalizing st with
  | nil =>
    simp only [runCalls, List.sum_nil, List.range_zero, List.map_nil, Nat.add_zero]
    rw [Nat.mod_eq_of_lt hpos]
    simp
  | cons n ns ih =>
    simp only [runCalls, next_batch]
    rw [nextBatchLoop_cycle st n hrep hsh hpos]
    have hlen : 0 < st.data.length := by omega
    obtain ⟨ih1, ih2⟩ := ih { st with pos := (st.pos + n) % st.data.length } hrep hsh
      (by simp only []; exact Nat.mod_lt _ hlen)
    rw [ih1, ih2]
    simp only [List.sum_cons]
    refine ⟨?_, ?_⟩
    · rw [List.range_add, List.map_append, List.map_map]
      congr 1
      apply List.map_congr_left
      intro k hk
      simp only [Function.comp_apply]
      rw [Nat.mod_add_mod]
      congr 2
      omega
    · simp only [simple_data_iterator.mk.injEq, true_and, and_true]
      rw [Nat.mod_add_mod]
      congr 1
      omega

/-! ### Claim theorems: batch cursor -/

/-- C2: for every `simple_data_iterator` constructed with `repeat=true` and
`shuffle=false` over a non-empty dataset of `N` rows, successive `next_batch`
calls emit the rows of the dataset cyclically in original order: the `k`-th sample
emitted overall is row `k mod N`. -/
theorem claim_C2_cyclic_wraparound {α : Type} [Inhabited α] (data : List α)
    (reshuffle : List α → List α) (ns : List ℕ) (hd : data ≠ []) :
    (runCalls (simple_data_iterator.construct data true false reshuffle) ns).1 =
      (List.range ns.sum).map (fun k => data.getD (k % data.length) default) := by
  have hpos : (simple_data_iterator.construct data true false reshuffle).pos <
      (simple_data_iterator.construct data true false reshuffle).data.length := by
    simp only [simple_data_iterator.construct]
    exact List.length_pos.mpr hd
  rw [(runCalls_cycle _ ns rfl rfl hpos).1]
  apply List.map_congr_left
  intro k hk
  simp [simple_data_iterator.construct]

/-- C2 witness: a dataset of 3 rows with one batch of size 5 yields rows
`[0,1,2,0,1]`. -/
theorem claim_C2_witness :
    (runCalls (simple_data_iterator.construct ([0, 1, 2] : List ℕ) true false id) [5]).1 =
      [0, 1, 2, 0, 1] := by
  rw [claim_C2_cyclic_wraparound ([0, 1, 2] : List ℕ) id [5] (by decide)]
  decide

/-- C4: with `repeat=false`, once all rows have been consumed by `next_batch`
calls, `has_next_batch()` returns `false` and any further `next_batch(n)` call
returns a batch with `num_samples = 0`. -/
theorem claim_C4_norepeat_termination {α : Type} (data : List α) (shuffle : Bool)
    (reshuffle : List α → List α) (ns : List ℕ) (n : ℕ)
    (hconsumed : data.length ≤ ns.sum) :
    has_next_batch
        (runCalls (simple_data_iterator.construct data false shuffle reshuffle) ns).2 = false
    ∧ (next_batch
        (runCalls (simple_data_iterator.construct data false shuffle reshuffle) ns).2 n).1.length
        = 0 := by
  have hstate := runCalls_norepeat_state
    (simple_data_iterator.construct data false shuffle reshuffle) ns rfl
    (by simp [simple_data_iterator.construct])
  rw [hstate]
  simp only [simple_data_iterator.construct]
  have hmin : min (0 + ns.sum) data.length = data.length := by omega
  rw [hmin]
  refine ⟨?_, ?_⟩
  · simp [has_next_batch]
  · rw [next_batch, nextBatchLoop_norepeat_length _ _ rfl]
    simp

/-- C4 witness: a 2-row dataset, one `next_batch(3)` call consumes everything;
afterwards `has_next_batch` is `false` and `next_batch(4)` is empty. -/
theorem claim_C4_witness :
    has_next_batch
        (runCalls (simple_data_iterator.construct ([7, 8] : List ℕ) false false id) [3]).2 = false
    ∧ (next_batch
        (runCalls (simple_data_iterator.construct ([7, 8] : List ℕ) false false id) [3]).2
        4).1.length = 0 :=
  claim_C4_norepeat_termination ([7, 8] : List ℕ) false id [3] 4 (by decide)

/-- C5 (amended): `next_batch(n)` always returns at most `n` samples; it
returns exactly `n` samples whenever `repeat=true` and the dataset is
non-empty (the cursor sits strictly before the end, and reshuffling preserves
the row count), and whenever at least `n` rows remain before the dataset
end.  (The unamended claim fails on an empty dataset with `repeat=true`.) -/
theorem claim_C5_batch_shape {α : Type} (st : simple_data_iterator α) (n : ℕ) :
    (next_batch st n).1.length ≤ n
    ∧ (st.repeat_ = true → st.pos < st.data.length →
        (∀ l, (st.reshuffle l).length = l.length) → (next_batch st n).1.length = n)
    ∧ (st.pos + n ≤ st.data.length → (next_batch st n).1.length = n) :=
  ⟨nextBatchLoop_length_le st n,
   fun hrep hpos hres => nextBatchLoop_repeat_length st n hrep hpos hres,
   fun hrem => nextBatchLoop_remaining_length st n hrem⟩

/-- C5 counterexample: an iterator over an empty dataset with `repeat=true`
returns 0 samples from `next_batch(1)`, refuting "`num_samples = n` whenever
`repeat=true`". -/
theorem claim_C5_counterexample :
    (next_batch (simple_data_iterator.construct ([] : List ℕ) true false id) 1).1.length ≠ 1 := by
  decide

/-- C5 witness: on a 3-row dataset, `next_batch(5)` with `repeat=true` yields
exactly 5 samples, and `next_batch(2)` with `repeat=false` yields exactly 2. -/
theorem claim_C5_witness :
    (next_batch (simple_data_iterator.construct ([10, 20, 30] : List ℕ) true false id) 5).1.length
      ≤ 5
    ∧ (next_batch (simple_data_iterator.construct ([10, 20, 30] : List ℕ) true false id)
        5).1.length = 5
    ∧ (next_batch (simple_data_iterator.construct ([10, 20, 30] : List ℕ) false false id)
        2).1.length = 2 :=
  ⟨(claim_C5_batch_shape _ 5).1,
   (claim_C5_batch_shape _ 5).2.1 rfl (by decide) (fun l => rfl),
   (claim_C5_batch_shape _ 2).2.2 (by decide)⟩

/-! ### Label registry lemmas -/

theorem buildMapFrom_not_mem (ls : List String) (i : ℕ) (m : String → Option ℕ) (x : String)
    (hx : x ∉ ls) : buildMapFrom ls i m x = m x := by
  induction ls generalizing i m with
  | nil => rfl
  | cons l ls ih =>
    simp only [buildMapFrom]
    rw [ih _ _ (fun h => hx (List.mem_cons_of_mem l h))]
    rw [Function.update_noteq (fun h => hx (by rw [h]; exact List.mem_cons_self l ls))]

theorem buildMapFrom_mem_ne_none (ls : List String) (i : ℕ) (m : String → Option ℕ) (x : String)
    (hx : x ∈ ls) : buildMapFrom ls i m x ≠ none := by
  induction ls generalizing i m with
  | nil => cases hx
  | cons l ls ih =>
    simp only [buildMapFrom]
    by_cases hmem : x ∈ ls
    · exact ih _ _ hmem
    · have hxl : x = l := by
        rcases List.mem_cons.mp hx with h | h
        · exact h
        · exact absurd h hmem
      rw [buildMapFrom_not_mem ls _ _ _ hmem, hxl, Function.update_same]
      simp

theorem buildMap_eq_none_iff (ls : List String) (x : String) :
    buildMap ls x = none ↔ x ∉ ls := by
  constructor
  · intro h hmem
    exact buildMapFrom_mem_ne_none ls 0 _ x hmem h
  · intro h
    rw [buildMap, buildMapFrom_not_mem ls 0 _ x h]

theorem buildMapFrom_nodup_get (ls : List String) (hnd : ls.Nodup) (i : ℕ)
    (m : String → Option ℕ) (j : ℕ) (hj : j < ls.length) :
    buildMapFrom ls i m (ls.get ⟨j, hj⟩) = some (i + j) := by
  induction ls generalizing i m j with
  | nil => cases hj
  | cons l ls ih =>
    rcases List.nodup_cons.mp hnd with ⟨hl, hnd'⟩
    match j with
    | 0 =>
      simp only [List.get, buildMapFrom]
      rw [buildMapFrom_not_mem ls _ _ _ hl, Function.update_same, Nat.add_zero]
    | j + 1 =>
      simp only [List.get, buildMapFrom]
      rw [ih hnd' _ _ j (by simpa using hj)]
      congr 1
      omega

theorem mem_uniqueSorted (targets : List String) (l : String) :
    l ∈ uniqueSorted targets ↔ l ∈ targets := by
  rw [uniqueSorted, Finset.mem_sort, List.mem_toFinset]

theorem uniqueSorted_sorted (targets : List String) :
    List.Sorted (· ≤ ·) (uniqueSorted targets) :=
  Finset.sort_sorted _ _

theorem uniqueSorted_nodup (targets : List String) : (uniqueSorted targets).Nodup :=
  Finset.sort_nodup _ _

/-! ### Claim theorems: label registry -/

/-- C3: constructing with a non-empty expected-label list throws if and only
if some label observed in the target column is absent from that list; on
success the class list equals the expected list exactly, in its given order,
including labels that never occur in the data. -/
theorem claim_C3_label_validation (targets expected : List String) (hne : expected ≠ []) :
    (isError (compute_properties targets expected) = true ↔ ∃ t ∈ targets, t ∉ expected)
    ∧ ∀ r, compute_properties targets expected = Except.ok r → r.classes = expected := by
  have hemp : ¬(expected.isEmpty = true) := by
    simp [List.isEmpty_iff, hne]
  rw [compute_properties]
  rw [if_neg hemp]
  rcases hfind : (uniqueSorted targets).find? (fun l => (buildMap expected l).isNone)
    with _ | l
  · have hall := List.find?_eq_none.mp hfind
    simp only [hfind]
    refine ⟨?_, ?_⟩
    · simp only [isError]
      constructor
      · intro h
        cases h
      · rintro ⟨t, ht, hout⟩
        have : (buildMap expected t).isNone = true := by
          simp [Option.isNone_iff_eq_none, (buildMap_eq_none_iff expected t).mpr hout]
        exact absurd this (by simpa using hall t ((mem_uniqueSorted targets t).mpr ht))
    · intro r hr
      cases hr
      rfl
  · have hp := List.find?_some hfind
    have hmem := List.mem_of_find?_eq_some hfind
    simp only [hfind]
    refine ⟨?_, ?_⟩
    · simp only [isError, true_iff]
      refine ⟨l, (mem_uniqueSorted targets l).mp hmem, ?_⟩
      exact (buildMap_eq_none_iff expected l).mp (Option.isNone_iff_eq_none.mp (by simpa using hp))
    · intro r hr
      cases hr

/-- C3 witness: expected labels `["b", "a"]` (unsorted, with the unseen label
`"b"`) over data observing only `"a"` succeed with classes exactly
`["b", "a"]`; data observing `"c"` throw. -/
theorem claim_C3_witness :
    (isError (compute_properties ["a"] ["b", "a"]) = false)
    ∧ (∀ r, compute_properties ["a"] ["b", "a"] = Except.ok r → r.classes = ["b", "a"])
    ∧ isError (compute_properties ["c"] ["b", "a"]) = true := by
  refine ⟨?_, ?_, ?_⟩
  · have h := (claim_C3_label_validation ["a"] ["b", "a"] (by decide)).1
    rcases Bool.eq_false_or_eq_true (isError (compute_properties ["a"] ["b", "a"]))
      with hval | hval
    · exfalso
      rcases h.mp hval with ⟨t, ht, hout⟩
      rcases List.mem_singleton.mp ht with rfl
      exact hout (by decide)
    · exact hval
  · exact (claim_C3_label_validation ["a"] ["b", "a"] (by decide)).2
  · exact (claim_C3_label_validation ["c"] ["b", "a"] (by decide)).1.mpr
      ⟨"c", by decide, by decide⟩

/-- C7: `compute_properties` with an empty expected-label list deterministically
returns as classes exactly the distinct observed labels sorted
lexicographically, with the index map assigning `0..n-1` in that sorted
order; two runs over the same data produce this same value. -/
theorem claim_C7_label_inference (targets : List String) :
    compute_properties targets [] = Except.ok (inferredProperties targets)
    ∧ List.Sorted (· ≤ ·) (inferredProperties targets).classes
    ∧ (inferredProperties targets).classes.Nodup
    ∧ (∀ l, l ∈ (inferredProperties targets).classes ↔ l ∈ targets)
    ∧ ∀ (j : ℕ) (hj : j < (inferredProperties targets).classes.length),
        (inferredProperties targets).class_to_index_map
          ((inferredProperties targets).classes.get ⟨j, hj⟩) = some j := by
  have heq : inferredProperties targets =
      { classes := uniqueSorted targets, class_to_index_map := buildMap (uniqueSorted targets) } :=
    rfl
  refine ⟨rfl, ?_, ?_, ?_, ?_⟩
  · rw [heq]
    exact uniqueSorted_sorted targets
  · rw [heq]
    exact uniqueSorted_nodup targets
  · intro l
    rw [heq]
    exact mem_uniqueSorted targets l
  · intro j hj
    simpa using buildMapFrom_nodup_get (uniqueSorted targets) (uniqueSorted_nodup targets) 0
      (fun _ => none) j hj

/-! ### Pipelined trainer / evaluator lemmas -/

theorem pop_until_size_queue_length {σ : Type} (fold : σ → BatchResult → σ) (r : ℕ)
    (q : List BatchResult) : ∀ acc, (pop_until_size fold r acc q).2.length = min q.length r := by
  induction q with
  | nil => intro acc; simp [pop_until_size]
  | cons b rest ih =>
    intro acc
    simp only [pop_until_size]
    split
    · rename_i h
      rw [ih]
      simp only [List.length_cons] at h ⊢
      omega
    · rename_i h
      simp only [List.length_cons] at h ⊢
      omega

theorem pop_until_size_foldl {σ : Type} (fold : σ → BatchResult → σ) (r : ℕ)
    (q : List BatchResult) :
    ∀ (acc : σ) (l : List BatchResult),
      List.foldl fold (pop_until_size fold r acc q).1 ((pop_until_size fold r acc q).2 ++ l) =
        List.foldl fold acc (q ++ l) := by
  induction q with
  | nil => intro acc l; rfl
  | cons b rest ih =>
    intro acc l
    simp only [pop_until_size]
    split
    · rw [ih]
      rfl
    · rfl

theorem pop_until_size_zero {σ : Type} (fold : σ → BatchResult → σ) (q : List BatchResult) :
    ∀ acc, pop_until_size fold 0 acc q = (List.foldl fold acc q, []) := by
  induction q with
  | nil => intro acc; rfl
  | cons b rest ih =>
    intro acc
    simp only [pop_until_size]
    rw [if_pos (by omega)]
    rw [ih]
    rfl

theorem foldl_trainFold_num_batches (l : List BatchResult) :
    ∀ a : TrainAcc, (List.foldl trainFold a l).num_batches = a.num_batches := by
  induction l with
  | nil => intro a; rfl
  | cons b rest ih => intro a; rw [List.foldl_cons, ih]; rfl

theorem pop_until_size_trainFold_num_batches (r : ℕ) (q : List BatchResult) :
    ∀ acc : TrainAcc, (pop_until_size trainFold r acc q).1.num_batches = acc.num_batches := by
  induction q with
  | nil => intro acc; rfl
  | cons b rest ih =>
    intro acc
    simp only [pop_until_size]
    split
    · rw [ih]; rfl
    · rfl

theorem foldl_trainFold_set_num_batches (l : List BatchResult) :
    ∀ (a : TrainAcc) (x : ℕ),
      List.foldl trainFold { a with num_batches := x } l =
        { List.foldl trainFold a l with num_batches := x } := by
  induction l with
  | nil => intro a x; rfl
  | cons b rest ih =>
    intro a x
    rw [List.foldl_cons,
      show trainFold { a with num_batches := x } b = { trainFold a b with num_batches := x }
        from rfl,
      ih]
    rfl

theorem foldl_valFold_val_size (l : List BatchResult) :
    ∀ a : ValAcc, (List.foldl valFold a l).val_size = a.val_size := by
  induction l with
  | nil => intro a; rfl
  | cons b rest ih => intro a; rw [List.foldl_cons, ih]; rfl

theorem pop_until_size_valFold_val_size (r : ℕ) (q : List BatchResult) :
    ∀ acc : ValAcc, (pop_until_size valFold r acc q).1.val_size = acc.val_size := by
  induction q with
  | nil => intro acc; rfl
  | cons b rest ih =>
    intro acc
    simp only [pop_until_size]
    split
    · rw [ih]; rfl
    · rfl

theorem foldl_valFold_set_val_size (l : List BatchResult) :
    ∀ (a : ValAcc) (x : ℕ),
      List.foldl valFold { a with val_size := x } l =
        { List.foldl valFold a l with val_size := x } := by
  induction l with
  | nil => intro a x; rfl
  | cons b rest ih =>
    intro a x
    rw [List.foldl_cons,
      show valFold { a with val_size := x } b = { valFold a b with val_size := x } from rfl,
      ih]
    rfl

theorem trainLoop_drained (bs : List BatchResult) :
    ∀ (acc : TrainAcc) (q : List BatchResult),
      (pop_until_size trainFold 0 (trainLoop acc q bs).acc (trainLoop acc q bs).queue).1 =
        { List.foldl trainFold acc (q ++ bs) with
            num_batches := acc.num_batches + bs.length } := by
  induction bs with
  | nil =>
    intro acc q
    simp only [trainLoop, pop_until_size_zero, List.append_nil, List.length_nil, Nat.add_zero]
    conv_rhs => rw [← foldl_trainFold_num_batches q acc]
  | cons b rest ih =>
    intro acc q
    simp only [trainLoop]
    rw [ih]
    rw [foldl_trainFold_set_num_batches]
    have hassoc : (pop_until_size trainFold 1 acc q).2 ++ [b] ++ rest =
        (pop_until_size trainFold 1 acc q).2 ++ (b :: rest) := by
      rw [List.append_assoc]
      rfl
    rw [hassoc, pop_until_size_foldl trainFold 1 q acc (b :: rest)]
    simp only [TrainAcc.mk.injEq, List.length_cons, true_and, and_true]
    rw [pop_until_size_trainFold_num_batches]
    omega

theorem valLoop_drained (bs : List BatchResult) :
    ∀ (acc : ValAcc) (q : List BatchResult),
      (pop_until_size valFold 0 (valLoop acc q bs).acc (valLoop acc q bs).queue).1 =
        { List.foldl valFold acc (q ++ bs) with
            val_size := acc.val_size + (bs.map (fun b => b.numSamples)).sum } := by
  induction bs with
  | nil =>
    intro acc q
    simp only [valLoop, pop_until_size_zero, List.append_nil, List.map_nil, List.sum_nil,
      Nat.add_zero]
    conv_rhs => rw [← foldl_valFold_val_size q acc]
  | cons b rest ih =>
    intro acc q
    simp only [valLoop]
    rw [ih]
    rw [foldl_valFold_set_val_size]
    have hassoc : (pop_until_size valFold 1 acc q).2 ++ [b] ++ rest =
        (pop_until_size valFold 1 acc q).2 ++ (b :: rest) := by
      rw [List.append_assoc]
      rfl
    rw [hassoc, pop_until_size_foldl valFold 1 q acc (b :: rest)]
    simp only [ValAcc.mk.injEq, List.map_cons, List.sum_cons, true_and, and_true]
    rw [pop_until_size_valFold_val_size]
    omega

theorem foldl_trainFold_eq (l : List BatchResult) :
    ∀ a : TrainAcc,
      List.foldl trainFold a l =
        { cumulative_batch_loss := a.cumulative_batch_loss +
            (l.map (fun b => b.lossValues.sum / (b.numSamples : ℚ))).sum,
          num_batches := a.num_batches,
          train_num_correct := a.train_num_correct + (l.map batchNumCorrect).sum,
          train_num_samples := a.train_num_samples + (l.map (fun b => b.numSamples)).sum } := by
  induction l with
  | nil =>
    intro a
    simp only [List.map_nil, List.sum_nil, Nat.add_zero, add_zero, List.foldl_nil]
  | cons b rest ih =>
    intro a
    rw [List.foldl_cons, ih]
    simp only [trainFold, List.map_cons, List.sum_cons, TrainAcc.mk.injEq, true_and, and_true]
    refine ⟨by ring, by omega, by omega⟩

theorem foldl_valFold_eq (l : List BatchResult) :
    ∀ a : ValAcc,
      List.foldl valFold a l =
        { cumulative_val_loss := a.cumulative_val_loss +
            (l.map (fun b => b.lossValues.sum)).sum,
          val_size := a.val_size,
          val_num_correct := a.val_num_correct + (l.map batchNumCorrect).sum,
          val_num_samples := a.val_num_samples + (l.map (fun b => b.numSamples)).sum } := by
  induction l with
  | nil =>
    intro a
    simp only [List.map_nil, List.sum_nil, Nat.add_zero, add_zero, List.foldl_nil]
  | cons b rest ih =>
    intro a
    rw [List.foldl_cons, ih]
    simp only [valFold, List.map_cons, List.sum_cons, ValAcc.mk.injEq, true_and, and_true]
    refine ⟨by ring, by omega, by omega⟩

theorem trainFinalAcc_eq (bs : List BatchResult) :
    trainFinalAcc bs =
      { cumulative_batch_loss := (bs.map (fun b => b.lossValues.sum / (b.numSamples : ℚ))).sum,
        num_batches := bs.length,
        train_num_correct := (bs.map batchNumCorrect).sum,
        train_num_samples := (bs.map (fun b => b.numSamples)).sum } := by
  simp only [trainFinalAcc]
  rw [trainLoop_drained bs trainAcc0 [], foldl_trainFold_eq]
  simp [trainAcc0]

theorem valFinalAcc_eq (bs : List BatchResult) :
    valFinalAcc bs =
      { cumulative_val_loss := (bs.map (fun b => b.lossValues.sum)).sum,
        val_size := (bs.map (fun b => b.numSamples)).sum,
        val_num_correct := (bs.map batchNumCorrect).sum,
        val_num_samples := (bs.map (fun b => b.numSamples)).sum } := by
  simp only [valFinalAcc]
  rw [valLoop_drained bs valAcc0 [], foldl_valFold_eq]
  simp [valAcc0]

theorem trainEpochSummary_eq (bs : List BatchResult) :
    trainEpochSummary bs =
      { accuracy := ((bs.map batchNumCorrect).sum : ℚ) /
          (((bs.map (fun b => b.numSamples)).sum : ℕ) : ℚ),
        loss := (bs.map (fun b => b.lossValues.sum / (b.numSamples : ℚ))).sum /
          (bs.length : ℚ) } := by
  simp only [trainEpochSummary]
  rw [trainFinalAcc_eq]

theorem valEpochSummary_eq (bs : List BatchResult) :
    valEpochSummary bs =
      { accuracy := ((bs.map batchNumCorrect).sum : ℚ) /
          (((bs.map (fun b => b.numSamples)).sum : ℕ) : ℚ),
        loss := (bs.map (fun b => b.lossValues.sum)).sum /
          (((bs.map (fun b => b.numSamples)).sum : ℕ) : ℚ) } := by
  simp only [valEpochSummary]
  rw [valFinalAcc_eq]

theorem trainLoop_depthLog (bs : List BatchResult) :
    ∀ (acc : TrainAcc) (q : List BatchResult),
      ∀ d ∈ (trainLoop acc q bs).depthLog, d.1 ≤ 1 ∧ d.2 ≤ 2 := by
  induction bs with
  | nil =>
    intro acc q d hd
    simp [trainLoop] at hd
  | cons b rest ih =>
    intro acc q d hd
    simp only [trainLoop, List.mem_cons] at hd
    rcases hd with rfl | hd
    · rw [pop_until_size_queue_length]
      omega
    · exact ih _ _ d hd

theorem valLoop_depthLog (bs : List BatchResult) :
    ∀ (acc : ValAcc) (q : List BatchResult),
      ∀ d ∈ (valLoop acc q bs).depthLog, d.1 ≤ 1 ∧ d.2 ≤ 2 := by
  induction bs with
  | nil =>
    intro acc q d hd
    simp [valLoop] at hd
  | cons b rest ih =>
    intro acc q d hd
    simp only [valLoop, List.mem_cons] at hd
    rcases hd with rfl | hd
    · rw [pop_until_size_queue_length]
      omega
    · exact ih _ _ d hd

/-! ### Claim theorems: pipelined trainer / evaluator -/

/-- C1 (amended): for every epoch, given the per-batch backend results, both
loops record accuracy as the size-weighted
`sum(accuracy_i*numSamples_i)/sum(numSamples_i)` (provided each
`accuracy_i*numSamples_i` is a whole correct-count), and
`compute_validation_metrics` records the size-weighted loss
`sum(per-sample losses)/sum(numSamples_i)`; but the loss `iterate_training`
records is the *unweighted mean of per-batch average losses*,
`sum(loss_i/numSamples_i)/num_batches`, not the size-weighted aggregate the
claim states. -/
theorem claim_C1_aggregation (batches : List BatchResult)
    (hne : batches ≠ [])
    (hn : ∀ b ∈ batches, 1 ≤ b.numSamples)
    (hacc : ∀ b ∈ batches, ∃ c : ℕ, b.accuracy * (b.numSamples : ℚ) = (c : ℚ)) :
    (trainEpochSummary batches).accuracy =
        (batches.map (fun b => b.accuracy * (b.numSamples : ℚ))).sum /
          (((batches.map (fun b => b.numSamples)).sum : ℕ) : ℚ)
    ∧ (valEpochSummary batches).accuracy =
        (batches.map (fun b => b.accuracy * (b.numSamples : ℚ))).sum /
          (((batches.map (fun b => b.numSamples)).sum : ℕ) : ℚ)
    ∧ (valEpochSummary batches).loss =
        (batches.map (fun b => b.lossValues.sum)).sum /
          (((batches.map (fun b => b.numSamples)).sum : ℕ) : ℚ)
    ∧ (trainEpochSummary batches).loss =
        (batches.map (fun b => b.lossValues.sum / (b.numSamples : ℚ))).sum /
          (batches.length : ℚ) := by
  have hcast : (((batches.map batchNumCorrect).sum : ℕ) : ℚ) =
      (batches.map (fun b => b.accuracy * (b.numSamples : ℚ))).sum := by
    rw [Nat.cast_list_sum, List.map_map]
    congr 1
    apply List.map_congr_left
    intro b hb
    obtain ⟨c, hc⟩ := hacc b hb
    simp only [Function.comp_apply, batchNumCorrect]
    rw [hc, Int.floor_natCast, Int.toNat_natCast]
  rw [trainEpochSummary_eq, valEpochSummary_eq]
  exact ⟨by rw [hcast], by rw [hcast], rfl, rfl⟩

/-- C1 counterexample: for batches `(10, 0.8, Σloss=2)` and `(5, 0.4, Σloss=3)`
the training-loop loss recorded is `(2/10 + 3/5)/2 = 2/5`, not the
size-weighted `(2+3)/15 = 1/3` that the claim states. -/
theorem claim_C1_counterexample :
    (trainEpochSummary
        [{ numSamples := 10, accuracy := 4/5, lossValues := [2] },
         { numSamples := 5, accuracy := 2/5, lossValues := [3] }]).loss ≠
      ((2 : ℚ) + 3) / (10 + 5) := by
  rw [trainEpochSummary_eq]
  simp only [List.map_cons, List.map_nil, List.sum_cons, List.sum_nil, List.length_cons,
    List.length_nil]
  norm_num

/-- C1 witness: the hand-computed example of the spec, batches `(10, 0.8, Σloss=2)`
and `(5, 0.4, Σloss=3)`. -/
theorem claim_C1_witness :
    (trainEpochSummary
        [{ numSamples := 10, accuracy := 4/5, lossValues := [2] },
         { numSamples := 5, accuracy := 2/5, lossValues := [3] }]).accuracy =
        (([{ numSamples := 10, accuracy := 4/5, lossValues := [2] },
            { numSamples := 5, accuracy := 2/5, lossValues := [3] }] :
              List BatchResult).map (fun b => b.accuracy * (b.numSamples : ℚ))).sum /
          (((([{ numSamples := 10, accuracy := 4/5, lossValues := [2] },
               { numSamples := 5, accuracy := 2/5, lossValues := [3] }] :
                 List BatchResult).map (fun b => b.numSamples)).sum : ℕ) : ℚ)
    ∧ (valEpochSummary
        [{ numSamples := 10, accuracy := 4/5, lossValues := [2] },
         { numSamples := 5, accuracy := 2/5, lossValues := [3] }]).accuracy =
        (([{ numSamples := 10, accuracy := 4/5, lossValues := [2] },
            { numSamples := 5, accuracy := 2/5, lossValues := [3] }] :
              List BatchResult).map (fun b => b.accuracy * (b.numSamples : ℚ))).sum /
          (((([{ numSamples := 10, accuracy := 4/5, lossValues := [2] },
               { numSamples := 5, accuracy := 2/5, lossValues := [3] }] :
                 List BatchResult).map (fun b => b.numSamples)).sum : ℕ) : ℚ)
    ∧ (valEpochSummary
        [{ numSamples := 10, accuracy := 4/5, lossValues := [2] },
         { numSamples := 5, accuracy := 2/5, lossValues := [3] }]).loss =
        (([{ numSamples := 10, accuracy := 4/5, lossValues := [2] },
            { numSamples := 5, accuracy := 2/5, lossValues := [3] }] :
              List BatchResult).map (fun b => b.lossValues.sum)).sum /
          (((([{ numSamples := 10, accuracy := 4/5, lossValues := [2] },
               { numSamples := 5, accuracy := 2/5, lossValues := [3] }] :
                 List BatchResult).map (fun b => b.numSamples)).sum : ℕ) : ℚ)
    ∧ (trainEpochSummary
        [{ numSamples := 10, accuracy := 4/5, lossValues := [2] },
         { numSamples := 5, accuracy := 2/5, lossValues := [3] }]).loss =
        (([{ numSamples := 10, accuracy := 4/5, lossValues := [2] },
            { numSamples := 5, accuracy := 2/5, lossValues := [3] }] :
              List BatchResult).map (fun b => b.lossValues.sum / (b.numSamples : ℚ))).sum /
          (([{ numSamples := 10, accuracy := 4/5, lossValues := [2] },
              { numSamples := 5, accuracy := 2/5, lossValues := [3] }] :
                List BatchResult).length : ℚ) :=
  claim_C1_aggregation _
    (by simp)
    (by
      intro b hb
      simp only [List.mem_cons, List.not_mem_nil, or_false] at hb
      rcases hb with rfl | rfl <;> norm_num)
    (by
      intro b hb
      simp only [List.mem_cons, List.not_mem_nil, or_false] at hb
      rcases hb with rfl | rfl
      · exact ⟨8, by norm_num⟩
      · exact ⟨2, by norm_num⟩)

/-- C6: throughout the per-epoch loops of `iterate_training` and
`compute_validation_metrics`, the pending queue is drained to at most 1 entry
before each new batch is submitted, holds at most 2 entries immediately after
each push, and is drained to 0 entries before the epoch summary is computed. -/
theorem claim_C6_pipeline_depth (bs : List BatchResult) :
    (∀ d ∈ (trainLoop trainAcc0 [] bs).depthLog, d.1 ≤ 1 ∧ d.2 ≤ 2)
    ∧ (pop_until_size trainFold 0 (trainLoop trainAcc0 [] bs).acc
        (trainLoop trainAcc0 [] bs).queue).2 = []
    ∧ (∀ d ∈ (valLoop valAcc0 [] bs).depthLog, d.1 ≤ 1 ∧ d.2 ≤ 2)
    ∧ (pop_until_size valFold 0 (valLoop valAcc0 [] bs).acc
        (valLoop valAcc0 [] bs).queue).2 = [] := by
  refine ⟨trainLoop_depthLog bs trainAcc0 [], ?_, valLoop_depthLog bs valAcc0 [], ?_⟩
  · rw [pop_until_size_zero]
  · rw [pop_until_size_zero]

/-- C8 (code divergence): when zero batches are processed in an epoch, every
denominator of the epoch-summary divisions — `num_batches` and
`train_num_samples` in `iterate_training`, `val_size` and `val_num_samples`
in `compute_validation_metrics` — is zero, and the code performs the divisions
unguarded (`0.f/0`, i.e. NaN in IEEE arithmetic), contrary to the claim that
this case is treated as a defined, guarded edge case. -/
theorem claim_C8_zero_sample_divisions :
    (trainFinalAcc []).num_batches = 0 ∧ (trainFinalAcc []).train_num_samples = 0
    ∧ (valFinalAcc []).val_size = 0 ∧ (valFinalAcc []).val_num_samples = 0 :=
  ⟨rfl, rfl, rfl, rfl⟩

/-! ### Claim theorems: save / export guards -/

/-- C9 (amended): on an uninitialized model spec, the drawing classifier
guards `save_impl` and `export_to_coreml` (without the default-spec fallback) with
fatal errors whose explicit messages tell the caller to `init_train`/`train`
first; the style transfer `save_impl`, however, performs no such check and
dereferences the null spec. -/
theorem claim_C9_uninitialized_guards :
    dc_save_impl none = SaveOutcome.fatal
        "model spec is not initalized, please call `init_train` before saving model"
    ∧ dc_export_to_coreml none false = SaveOutcome.fatal
        "model is not initialized; please call train before export_coreml"
    ∧ st_save_impl none = SaveOutcome.nullDeref :=
  ⟨rfl, rfl, rfl⟩

/-- C9 counterexample: `style_transfer::save_impl` on an uninitialized model
spec does not raise any explicit fatal error (it dereferences the null
`m_resnet_spec`), contrary to the claim. -/
theorem claim_C9_counterexample :
    ¬ ∃ msg : String, st_save_impl none = SaveOutcome.fatal msg := by
  rintro ⟨msg, h⟩
  simp [st_save_impl] at h

/-! ### Style transfer batch preparation lemmas -/

theorem writeAt_fill (A T b : List ℚ) (i L : ℕ) (hA : A.length = i * L)
    (hb : b.length = L) (hT : L ≤ T.length) :
    writeAt (A ++ T) (i * L) b = (A ++ b) ++ T.drop L := by
  rw [writeAt, ← hA, List.take_left, hb]
  have hdrop : (A ++ T).drop (A.length + L) = T.drop L := by
    rw [List.drop_append_eq_append_drop]
    rw [List.drop_eq_nil_of_le (by omega)]
    rw [List.nil_append]
    congr 1
    omega
  rw [hdrop]

theorem write_images_suffix (L : ℕ) (blocks : List (List ℚ)) :
    ∀ (i : ℕ) (A T : List ℚ), (∀ v ∈ blocks, v.length = L) →
      A.length = i * L → T.length = blocks.length * L →
      write_images L (A ++ T) i blocks = A ++ blocks.flatten := by
  induction blocks with
  | nil =>
    intro i A T _ hA hT
    have : T = [] := List.eq_nil_of_length_eq_zero (by simpa using hT)
    subst this
    simp [write_images]
  | cons b rest ih =>
    intro i A T hlen hA hT
    have hb : b.length = L := hlen b (List.mem_cons_self _ _)
    simp only [write_images]
    have hT' : T.length = rest.length * L + L := by
      simp only [List.length_cons, Nat.succ_mul] at hT
      exact hT
    rw [writeAt_fill A T b i L hA hb (by omega)]
    rw [ih (i + 1) (A ++ b) (T.drop L)
      (fun v hv => hlen v (List.mem_cons_of_mem _ hv))
      (by simp only [List.length_append, hA, hb, Nat.succ_mul])
      (by simp only [List.length_drop, hT']; omega)]
    simp [List.append_assoc]

/-! ### Claim theorems: style transfer batch preparation -/

/-- C10: for every batch assembled by `prepare_batch` over examples whose
resized images have `height*width*3` pixel bytes (each < 256), the returned
"input" and "labels" tensors have shape `[batchSize, height, width, 3]` and
contain the pixel values of the resized content (resp. style) images divided
by 255 — hence every entry lies in `[0,1]` — and the "index" tensor holds the
`style_index` of each example. -/
theorem claim_C10_prepare_batch (batch : List st_example) (width height : ℕ)
    (hcontent : ∀ e ∈ batch,
      (e.content_image.resized width height 3).length = height * width * 3
      ∧ ∀ v ∈ e.content_image.resized width height 3, v < 256)
    (hstyle : ∀ e ∈ batch,
      (e.style_image.resized width height 3).length = height * width * 3
      ∧ ∀ v ∈ e.style_image.resized width height 3, v < 256) :
    (prepare_batch batch width height).input.shape = [batch.length, height, width, 3]
    ∧ (prepare_batch batch width height).input.data =
        (batch.map (fun e => (e.content_image.resized width height 3).map
          (fun (v : ℕ) => (v : ℚ) / 255))).flatten
    ∧ (∀ x ∈ (prepare_batch batch width height).input.data, 0 ≤ x ∧ x ≤ 1)
    ∧ (prepare_batch batch width height).labels.shape = [batch.length, height, width, 3]
    ∧ (prepare_batch batch width height).labels.data =
        (batch.map (fun e => (e.style_image.resized width height 3).map
          (fun (v : ℕ) => (v : ℚ) / 255))).flatten
    ∧ (∀ x ∈ (prepare_batch batch width height).labels.data, 0 ≤ x ∧ x ≤ 1)
    ∧ (prepare_batch batch width height).index.shape = [batch.length]
    ∧ (prepare_batch batch width height).index.data =
        batch.map (fun e => (e.style_index : ℚ)) := by
  have harr : ∀ (resized : st_example → List ℕ),
      (∀ e ∈ batch, (resized e).length = height * width * 3) →
      write_images (height * width * 3)
          (List.replicate (height * width * 3 * batch.length) (0 : ℚ)) 0
          (batch.map (fun e => (resized e).map (fun (v : ℕ) => (v : ℚ) / 255))) =
        (batch.map (fun e => (resized e).map (fun (v : ℕ) => (v : ℚ) / 255))).flatten := by
    intro resized hres
    have h := write_images_suffix (height * width * 3)
      (batch.map (fun e => (resized e).map (fun (v : ℕ) => (v : ℚ) / 255))) 0 []
      (List.replicate (height * width * 3 * batch.length) (0 : ℚ))
      (by
        intro v hv
        rw [List.mem_map] at hv
        obtain ⟨e, he, rfl⟩ := hv
        rw [List.length_map]
        exact hres e he)
      (by simp)
      (by simp [Nat.mul_comm])
    simpa using h
  have hbound : ∀ (resized : st_example → List ℕ),
      (∀ e ∈ batch, ∀ v ∈ resized e, v < 256) →
      ∀ x ∈ (batch.map (fun e => (resized e).map (fun (v : ℕ) => (v : ℚ) / 255))).flatten,
        0 ≤ x ∧ x ≤ 1 := by
    intro resized hres x hx
    rw [List.mem_flatten] at hx
    obtain ⟨blk, hblk, hxblk⟩ := hx
    rw [List.mem_map] at hblk
    obtain ⟨e, he, rfl⟩ := hblk
    rw [List.mem_map] at hxblk
    obtain ⟨v, hv, rfl⟩ := hxblk
    have hv255 : (v : ℚ) ≤ 255 := by
      have := hres e he v hv
      exact_mod_cast Nat.le_of_lt_succ this
    constructor
    · positivity
    · rw [div_le_one (by norm_num)]
      exact hv255
  refine ⟨rfl, ?_, ?_, rfl, ?_, ?_, rfl, rfl⟩
  · exact harr (fun e => e.content_image.resized width height 3)
      (fun e he => (hcontent e he).1)
  · intro x hx
    refine hbound (fun e => e.content_image.resized width height 3)
      (fun e he => (hcontent e he).2) x ?_
    rw [← harr (fun e => e.content_image.resized width height 3)
      (fun e he => (hcontent e he).1)]
    exact hx
  · exact harr (fun e => e.style_image.resized width height 3)
      (fun e he => (hstyle e he).1)
  · intro x hx
    refine hbound (fun e => e.style_image.resized width height 3)
      (fun e he => (hstyle e he).2) x ?_
    rw [← harr (fun e => e.style_image.resized width height 3)
      (fun e he => (hstyle e he).1)]
    exact hx

/-- C10 witness: a concrete one-example batch of 1×1 images. -/
theorem claim_C10_witness :
    (prepare_batch exBatch 1 1).input.shape = [exBatch.length, 1, 1, 3]
    ∧ (prepare_batch exBatch 1 1).input.data =
        (exBatch.map (fun e => (e.content_image.resized 1 1 3).map
          (fun (v : ℕ) => (v : ℚ) / 255))).flatten
    ∧ (∀ x ∈ (prepare_batch exBatch 1 1).input.data, 0 ≤ x ∧ x ≤ 1)
    ∧ (prepare_batch exBatch 1 1).labels.shape = [exBatch.length, 1, 1, 3]
    ∧ (prepare_batch exBatch 1 1).labels.data =
        (exBatch.map (fun e => (e.style_image.resized 1 1 3).map
          (fun (v : ℕ) => (v : ℚ) / 255))).flatten
    ∧ (∀ x ∈ (prepare_batch exBatch 1 1).labels.data, 0 ≤ x ∧ x ≤ 1)
    ∧ (prepare_batch exBatch 1 1).index.shape = [exBatch.length]
    ∧ (prepare_batch exBatch 1 1).index.data =
        exBatch.map (fun e => (e.style_index : ℚ)) :=
  claim_C10_prepare_batch exBatch 1 1
    (by
      intro e he
      simp only [exBatch, List.mem_singleton] at he
      subst he
      exact ⟨rfl, by decide⟩)
    (by
      intro e he
      simp only [exBatch, List.mem_singleton] at he
      subst he
      exact ⟨rfl, by decide⟩)

end TuriCreate
